import Mathlib

/-!
# Verification of the `pattern-matching` engine (src/index.ts)

A shallow embedding of the JavaScript pattern-matching combinators
`either`, `neither`, `when`, `match` and the wildcard sentinel `_`.

JavaScript runtime values are modelled by `JSVal`: finite numbers, `NaN`,
strings, booleans, big integers, `null`, `undefined`, and objects.  An
object carries a reference identity `id : Nat` (strict equality between
objects in JS is reference identity), together with the two fields the
engine ever reads: an optional `operator` field (its value is itself a
`JSVal`; `none` means the field is absent, so reading it yields
`undefined`) and an optional `elements` field (`none` means absent, so
calling `.some`/`.every` on it would throw a `TypeError`).

Fallible evaluation is modelled in `Except Unit`: `.error ()` marks the
single place the engine can throw, namely `elements.some(...)` /
`elements.every(...)` when `elements` is not an array.
-/

namespace PatternMatching

/-- A JavaScript runtime value, restricted to the features the engine
inspects.  `obj id operator elements` is an object with reference
identity `id`; `operator`/`elements` are its (possibly absent) fields of
those names. -/
inductive JSVal : Type where
  | num (n : Int)
  | nan
  | str (s : String)
  | boolean (b : Bool)
  | bigint (n : Int)
  | null
  | undefined
  | obj (id : Nat) (operator : Option JSVal) (elements : Option (List JSVal))

/-- JavaScript strict equality `===`: primitives are equal when of the
same type with the same value, `NaN` equals nothing (including itself),
and objects are compared by reference identity. -/
def strictEq : JSVal → JSVal → Bool
  | .num a, .num b => a == b
  | .str a, .str b => a == b
  | .boolean a, .boolean b => a == b
  | .bigint a, .bigint b => a == b
  | .null, .null => true
  | .undefined, .undefined => true
  | .obj i _ _, .obj j _ _ => i == j
  | _, _ => false

/-- JavaScript truthiness: `0`, `NaN`, `""`, `false`, `null`,
`undefined` (and bigint `0n`) are falsy; everything else, in particular
every object, is truthy. -/
def truthy : JSVal → Bool
  | .num n => n != 0
  | .nan => false
  | .str s => s != ""
  | .boolean b => b
  | .bigint n => n != 0
  | .null => false
  | .undefined => false
  | .obj _ _ _ => true

/-- `v?.operator`: reading the `operator` field.  On primitives this is
`undefined` (property access on a primitive, or short-circuited by `?.`
on `null`/`undefined`); on an object it is the field's value, or
`undefined` when absent. -/
def getOperator : JSVal → JSVal
  | .obj _ (some op) _ => op
  | _ => .undefined

/-- Reading the `elements` field: `some` when it is present (an array),
`none` when absent (so that `elements.some(...)` would throw). -/
def getElements : JSVal → Option (List JSVal)
  | .obj _ _ (some els) => some els
  | _ => none

/-- `const WILDCARD_VALUE = '__primitive__match__wildcard__value__'`
(src/index.ts line 6). -/
def WILDCARD_VALUE : String := "__primitive__match__wildcard__value__"

/-- The exported alias `_` to `WILDCARD_VALUE` (src/index.ts line 96).
As in the source it is the plain string value. -/
def wildcardAlias : JSVal := .str WILDCARD_VALUE

/-- `operation(operator, elements)` (src/index.ts lines 15-21) builds a
fresh descriptor object; `id` is the reference identity of the new
object. -/
def operation (id : Nat) (operator : JSVal) (elements : List JSVal) : JSVal :=
  .obj id (some operator) (some elements)

/-- `either(...elements)` (src/index.ts line 23). -/
def either (id : Nat) (elements : List JSVal) : JSVal :=
  operation id (.str "either") elements

/-- `neither(...elements)` (src/index.ts line 26). -/
def neither (id : Nat) (elements : List JSVal) : JSVal :=
  operation id (.str "neither") elements

/-- The `MatchResult` algebraic data type (src/index.ts lines 29-42):
`positive result` is `{ matches: true, result }`, `negative` is
`{ matches: false }`. -/
inductive MatchResult : Type where
  | positive (result : JSVal)
  | negative

/-- One iteration of the `for` loop body of `when` (src/index.ts lines
70-87) for pattern element `p` against value `v`: `.ok true` means the
position matched (`continue`), `.ok false` means the arm fails
(`return { matches: false }`), `.error ()` means a thrown `TypeError`
(`elements.some`/`every` on an absent `elements` field). -/
def positionMatchesE (p v : JSVal) : Except Unit Bool :=
  if strictEq p (.str WILDCARD_VALUE) then .ok true
  else if truthy (getOperator p) then
    if strictEq (getOperator p) (.str "either") then
      match getElements p with
      | some els => .ok (els.any (fun e => strictEq e v))
      | none => .error ()
    else if strictEq (getOperator p) (.str "neither") then
      match getElements p with
      | some els => .ok (els.all (fun e => !strictEq e v))
      | none => .error ()
    else
      .ok (strictEq p v)
  else
    .ok (strictEq p v)

/-- The `for` loop of `when` over the paired positions: `.ok true` when
every position matches, `.ok false` on the first failing position. -/
def whenLoop : List (JSVal × JSVal) → Except Unit Bool
  | [] => .ok true
  | (p, v) :: rest =>
    match positionMatchesE p v with
    | .error e => .error e
    | .ok true => whenLoop rest
    | .ok false => .ok false

/-- `when(pattern, result)(values)` (src/index.ts lines 65-90): the
matcher produced by `when` applied to a value tuple. -/
def when (pattern : List JSVal) (result : JSVal) (values : List JSVal) :
    Except Unit MatchResult :=
  if pattern.length != values.length then .ok .negative
  else
    match whenLoop (pattern.zip values) with
    | .error e => .error e
    | .ok true => .ok (.positive result)
    | .ok false => .ok .negative

/-- The predicate of `match`'s `.find(({ matches, result }) => matches
&& result)` (src/index.ts line 52): the outcome is positive and its
result is truthy (for a negative outcome the destructured `result` is
`undefined`, which is falsy). -/
def qualifies : MatchResult → Bool
  | .positive r => truthy r
  | .negative => false

/-- Reading `.result` from a match outcome (`undefined` on the negative
variant, whose object has no `result` field). -/
def matchResultGet : MatchResult → JSVal
  | .positive r => r
  | .negative => .undefined

/-- `whens.map((when) => when(values))` (src/index.ts line 51): every
arm is applied to the value tuple, in list order; a throw in any arm
propagates. -/
def evalWhens : List (List JSVal → Except Unit MatchResult) → List JSVal →
    Except Unit (List MatchResult)
  | [], _ => .ok []
  | w :: rest, values =>
    match w values with
    | .error e => .error e
    | .ok m =>
      match evalWhens rest values with
      | .error e => .error e
      | .ok ms => .ok (m :: ms)

/-- `match(...values)(...whens)` (src/index.ts lines 49-52): apply all
arms, then return `find(({matches, result}) => matches && result)?.result`.
`none` models the `undefined` (Absent) returned when no arm qualifies. -/
def matchFn (values : List JSVal)
    (whens : List (List JSVal → Except Unit MatchResult)) :
    Except Unit (Option JSVal) :=
  match evalWhens whens values with
  | .error e => .error e
  | .ok results => .ok ((results.find? qualifies).map matchResultGet)

/-- Arms given as (pattern, result) pairs, turned into the matchers that
`when` produces from them. -/
def armsToWhens (arms : List (List JSVal × JSVal)) :
    List (List JSVal → Except Unit MatchResult) :=
  arms.map (fun a => when a.1 a.2)

/-- A pattern element that cannot make the engine throw: if it carries a
truthy `operator` field equal to `'either'` or `'neither'`, its
`elements` field is present.  Every documented pattern element (literal,
wildcard, well-formed descriptor) satisfies this. -/
def wellFormedElem (p : JSVal) : Bool :=
  !truthy (getOperator p) ||
  (getElements p).isSome ||
  (!strictEq (getOperator p) (.str "either") &&
    !strictEq (getOperator p) (.str "neither"))

/-- Fuel-indexed version of `whenLoop`: `none` means the fuel ran out
before the loop finished. -/
def whenLoopFuel : Nat → List (JSVal × JSVal) → Option (Except Unit Bool)
  | _, [] => some (.ok true)
  | 0, _ :: _ => none
  | fuel + 1, (p, v) :: rest =>
    match positionMatchesE p v with
    | .error e => some (.error e)
    | .ok true => whenLoopFuel fuel rest
    | .ok false => some (.ok false)

/-- Fuel-indexed version of `when`. -/
def whenFuel (fuel : Nat) (pattern : List JSVal) (result : JSVal)
    (values : List JSVal) : Option (Except Unit MatchResult) :=
  if pattern.length != values.length then some (.ok .negative)
  else
    match whenLoopFuel fuel (pattern.zip values) with
    | none => none
    | some (.error e) => some (.error e)
    | some (.ok true) => some (.ok (.positive result))
    | some (.ok false) => some (.ok .negative)

/-- Fuel-indexed evaluation of a list of `when`-arms against the value
tuple (the `whens.map((when) => when(values))` stage of `match`), one
unit of fuel per arm plus the fuel of each arm's own loop. -/
def evalArmsFuel : Nat → List (List JSVal × JSVal) → List JSVal →
    Option (Except Unit (List MatchResult))
  | _, [], _ => some (.ok [])
  | 0, _ :: _, _ => none
  | fuel + 1, (p, r) :: rest, values =>
    match whenFuel fuel p r values with
    | none => none
    | some (.error e) => some (.error e)
    | some (.ok m) =>
      match evalArmsFuel fuel rest values with
      | none => none
      | some (.error e) => some (.error e)
      | some (.ok ms) => some (.ok (m :: ms))

/-- The longest pattern tuple among a list of arms. -/
def maxPatLen : List (List JSVal × JSVal) → Nat
  | [] => 0
  | a :: rest => max a.1.length (maxPatLen rest)

/-- A pattern element that the engine dispatches to the set-membership
branches: its `operator` field is truthy and strictly equal to
`'either'` or `'neither'`. -/
def isSetDescriptor (p : JSVal) : Bool :=
  truthy (getOperator p) &&
  (strictEq (getOperator p) (.str "either") ||
    strictEq (getOperator p) (.str "neither"))

/-! ## Helper lemmas -/

/-- A position whose pattern element is strictly equal to the value and
is not dispatched to a set-membership branch matches. -/
theorem positionMatchesE_of_strictEq (p v : JSVal)
    (h : strictEq p v = true) (hd : isSetDescriptor p = false) :
    positionMatchesE p v = .ok true := by
  unfold positionMatchesE
  unfold isSetDescriptor at hd
  cases hw : strictEq p (.str WILDCARD_VALUE) with
  | true => simp [hw]
  | false =>
    cases ho : truthy (getOperator p) with
    | false => simp [hw, ho, h]
    | true =>
      rw [ho] at hd
      simp only [Bool.true_and, Bool.or_eq_false_iff] at hd
      simp [hw, ho, hd.1, hd.2, h]

/-- A well-formed pattern element can never make a position evaluation
throw. -/
theorem positionMatchesE_ok_of_wellFormed (p v : JSVal)
    (h : wellFormedElem p = true) : ∃ b, positionMatchesE p v = .ok b := by
  unfold positionMatchesE
  cases hw : strictEq p (.str WILDCARD_VALUE) with
  | true => exact ⟨true, by simp [hw]⟩
  | false =>
    cases ho : truthy (getOperator p) with
    | false => exact ⟨strictEq p v, by simp [hw, ho]⟩
    | true =>
      unfold wellFormedElem at h
      rw [ho] at h
      simp only [Bool.not_true, Bool.false_or] at h
      cases he : strictEq (getOperator p) (.str "either") with
      | true =>
        cases hel : getElements p with
        | none =>
          exfalso
          rw [he, hel] at h
          simp at h
        | some els =>
          exact ⟨els.any (fun e => strictEq e v), by simp [hw, ho, he, hel]⟩
      | false =>
        cases hn : strictEq (getOperator p) (.str "neither") with
        | true =>
          cases hel : getElements p with
          | none =>
            exfalso
            rw [hn, hel] at h
            simp at h
          | some els =>
            exact ⟨els.all (fun e => !strictEq e v), by simp [hw, ho, he, hn, hel]⟩
        | false => exact ⟨strictEq p v, by simp [hw, ho, he, hn]⟩

/-- If every paired position evaluates without throwing, the loop of
`when` evaluates without throwing. -/
theorem whenLoop_ok (pvs : List (JSVal × JSVal))
    (h : ∀ pv ∈ pvs, ∃ b, positionMatchesE pv.1 pv.2 = .ok b) :
    ∃ b, whenLoop pvs = .ok b := by
  induction pvs with
  | nil => exact ⟨true, rfl⟩
  | cons pv rest ih =>
    obtain ⟨p, v⟩ := pv
    obtain ⟨b, hb⟩ := h (p, v) (List.mem_cons_self _ _)
    cases b with
    | false => exact ⟨false, by simp [whenLoop, hb]⟩
    | true =>
      obtain ⟨b2, hb2⟩ := ih (fun pv hpv => h pv (List.mem_cons_of_mem _ hpv))
      exact ⟨b2, by simp [whenLoop, hb, hb2]⟩

/-- If every paired position matches, the loop of `when` succeeds. -/
theorem whenLoop_all_true (pvs : List (JSVal × JSVal))
    (h : ∀ pv ∈ pvs, positionMatchesE pv.1 pv.2 = .ok true) :
    whenLoop pvs = .ok true := by
  induction pvs with
  | nil => rfl
  | cons pv rest ih =>
    obtain ⟨p, v⟩ := pv
    have hb := h (p, v) (List.mem_cons_self _ _)
    have hrest := ih (fun pv hpv => h pv (List.mem_cons_of_mem _ hpv))
    simp [whenLoop, hb, hrest]

/-- If the positions before a failing position all evaluate without
throwing, the loop of `when` reports failure. -/
theorem whenLoop_false_of_mem (pre rest : List (JSVal × JSVal)) (d v : JSVal)
    (hpre : ∀ pv ∈ pre, ∃ b, positionMatchesE pv.1 pv.2 = .ok b)
    (hd : positionMatchesE d v = .ok false) :
    whenLoop (pre ++ (d, v) :: rest) = .ok false := by
  induction pre with
  | nil => simp [whenLoop, hd]
  | cons pv pre' ih =>
    obtain ⟨p, w⟩ := pv
    obtain ⟨b, hb⟩ := hpre (p, w) (List.mem_cons_self _ _)
    have hrest := ih (fun pv hpv => hpre pv (List.mem_cons_of_mem _ hpv))
    cases b with
    | false => simp [whenLoop, hb]
    | true => simp [whenLoop, hb, hrest]

/-- If every arm returns an outcome without throwing, the arm-evaluation
stage of `match` returns the list of outcomes without throwing. -/
theorem evalWhens_ok (whens : List (List JSVal → Except Unit MatchResult))
    (values : List JSVal) (h : ∀ w ∈ whens, ∃ m, w values = .ok m) :
    ∃ ms, evalWhens whens values = .ok ms := by
  induction whens with
  | nil => exact ⟨[], rfl⟩
  | cons w rest ih =>
    obtain ⟨m, hm⟩ := h w (List.mem_cons_self _ _)
    obtain ⟨ms, hms⟩ := ih (fun w hw => h w (List.mem_cons_of_mem _ hw))
    exact ⟨m :: ms, by simp [evalWhens, hm, hms]⟩

/-! ## Claim theorems -/

/-- C2: for every pattern tuple, result value, and value tuple, if the
value tuple's length differs from the pattern tuple's length then
`when(pattern, result)(values)` returns Negative (no error is
raised). -/
theorem when_arity_mismatch_negative (pattern : List JSVal) (r : JSVal)
    (values : List JSVal) (h : pattern.length ≠ values.length) :
    when pattern r values = .ok .negative := by
  have hb : (pattern.length != values.length) = true := bne_iff_ne.mpr h
  simp [when, hb]

/-- Witness for C2: `when([1], 'R')([])` is Negative. -/
theorem when_arity_mismatch_negative_witness :
    [JSVal.num 1].length ≠ ([] : List JSVal).length ∧
    when [.num 1] (.str "R") [] = .ok .negative :=
  ⟨by decide, when_arity_mismatch_negative [.num 1] (.str "R") [] (by decide)⟩

/-- Counterexample to C3 as stated: take the descriptor
`d = either(1, 2)` and evaluate `when([d], 'R')([d])`.  The single
position's pattern element is literal-equal (strictly equal, same
object reference) to the corresponding value and the tuples have equal
length, yet the arm is Negative rather than Positive with `'R'`: the
descriptor is dispatched to the set-membership branch, which tests the
value against the elements `1`, `2` instead of comparing it to the
descriptor itself. -/
theorem literal_equal_tuple_not_sufficient_cex :
    strictEq (either 0 [.num 1, .num 2]) (either 0 [.num 1, .num 2]) = true ∧
    when [either 0 [.num 1, .num 2]] (.str "R") [either 0 [.num 1, .num 2]]
      = .ok .negative :=
  ⟨rfl, rfl⟩

/-- C3 (amended): for every equal-length pattern tuple and value tuple
in which every position's pattern element is literal-equal to the
corresponding value and no pattern element is an either/neither
set-membership descriptor (a truthy `operator` field equal to
`'either'` or `'neither'`), `when(pattern, r)(values)` returns Positive
carrying exactly the result `r` captured at arm-construction time. -/
theorem when_literal_equal_positive (pattern : List JSVal) (r : JSVal)
    (values : List JSVal) (hlen : pattern.length = values.length)
    (heq : ∀ pv ∈ pattern.zip values, strictEq pv.1 pv.2 = true)
    (hnd : ∀ p ∈ pattern, isSetDescriptor p = false) :
    when pattern r values = .ok (.positive r) := by
  have hloop : whenLoop (pattern.zip values) = .ok true := by
    apply whenLoop_all_true
    intro pv hpv
    exact positionMatchesE_of_strictEq pv.1 pv.2 (heq pv hpv)
      (hnd pv.1 (List.of_mem_zip hpv).1)
  have hb : (pattern.length != values.length) = false := by
    simp [bne, hlen]
  simp [when, hb, hloop]

/-- Witness for C3 (amended): `when([1, 'a'], 'R')([1, 'a'])` is
Positive with result `'R'`. -/
theorem when_literal_equal_positive_witness :
    [JSVal.num 1, JSVal.str "a"].length = [JSVal.num 1, JSVal.str "a"].length ∧
    when [.num 1, .str "a"] (.str "R") [.num 1, .str "a"]
      = .ok (.positive (.str "R")) :=
  ⟨rfl,
    when_literal_equal_positive [.num 1, .str "a"] (.str "R")
      [.num 1, .str "a"] rfl
      (by
        intro pv hpv
        rcases List.mem_cons.mp hpv with h | h
        · rw [h]; rfl
        · rcases List.mem_cons.mp h with h | h
          · rw [h]; rfl
          · cases h)
      (by
        intro p hp
        rcases List.mem_cons.mp hp with h | h
        · rw [h]; rfl
        · rcases List.mem_cons.mp h with h | h
          · rw [h]; rfl
          · cases h)⟩

/-- C4: the wildcard sentinel (the exported `_`) matches every value at
its position; in particular `when([_], r)(values)` with any single
value is Positive with result `r`. -/
theorem wildcard_position_always_matches :
    (∀ v, positionMatchesE wildcardAlias v = .ok true) ∧
    (∀ r v, when [wildcardAlias] r [v] = .ok (.positive r)) := by
  constructor
  · intro v; rfl
  · intro r v; rfl

/-- Counterexample to C9 as stated: a string the caller builds with the
same content as the sentinel, used as a pattern element, IS treated as
the wildcard.  `when(['__primitive__match__wildcard__value__'], 'R')([0])`
is Positive even though a string is never strictly equal to the number
`0` — the position matched only because the wildcard test
`pattern[i] === WILDCARD_VALUE` compares strings by value, not by the
identity of the one exported sentinel. -/
theorem caller_string_treated_as_wildcard_cex :
    strictEq (.str "__primitive__match__wildcard__value__") (.num 0) = false ∧
    when [.str "__primitive__match__wildcard__value__"] (.str "R") [.num 0]
      = .ok (.positive (.str "R")) :=
  ⟨rfl, rfl⟩

/-- C9 (amended): wildcard semantics attaches to exactly the values
that are strictly equal (`===`) to the sentinel string
`'__primitive__match__wildcard__value__'`.  Since JavaScript compares
strings by value, a caller-supplied string with that content is treated
as the wildcard exactly like the exported `_`; every other value is
not. -/
theorem wildcard_iff_sentinel_string :
    (∀ p v, strictEq p (.str WILDCARD_VALUE) = true →
      positionMatchesE p v = .ok true) ∧
    (∀ p, strictEq p (.str WILDCARD_VALUE) = true ↔ p = .str WILDCARD_VALUE) := by
  constructor
  · intro p v h
    simp [positionMatchesE, h]
  · intro p
    constructor
    · intro h
      cases p <;> simp [strictEq] at h ⊢
      exact h
    · intro h
      rw [h]
      simp [strictEq]

/-- Witness for C9 (amended): the caller-built sentinel-content string
is strictly equal to the sentinel and matches the value `7`. -/
theorem wildcard_iff_sentinel_string_witness :
    strictEq (.str "__primitive__match__wildcard__value__")
      (.str WILDCARD_VALUE) = true ∧
    positionMatchesE (.str "__primitive__match__wildcard__value__")
      (.num 7) = .ok true :=
  ⟨rfl,
    wildcard_iff_sentinel_string.1
      (.str "__primitive__match__wildcard__value__") (.num 7) rfl⟩

/-- C5: an `either(a, b, c, ...)` pattern element matches a position
iff the value is strictly equal to at least one listed element; a
`neither(a, b, c, ...)` element matches iff the value is strictly equal
to none of them; with an empty element list `either()` never matches
and `neither()` always matches; and when a position's element fails to
match (and the earlier positions evaluate without throwing) the whole
arm evaluation returns Negative. -/
theorem either_neither_semantics :
    (∀ id els v, positionMatchesE (either id els) v
      = .ok (els.any (fun e => strictEq e v))) ∧
    (∀ id els v, positionMatchesE (neither id els) v
      = .ok (els.all (fun e => !strictEq e v))) ∧
    (∀ id v, positionMatchesE (either id []) v = .ok false) ∧
    (∀ id v, positionMatchesE (neither id []) v = .ok true) ∧
    (∀ (ps1 ps2 vs1 vs2 : List JSVal) (d v r : JSVal),
      ps1.length = vs1.length → ps2.length = vs2.length →
      (∀ pv ∈ ps1.zip vs1, ∃ b, positionMatchesE pv.1 pv.2 = .ok b) →
      positionMatchesE d v = .ok false →
      when (ps1 ++ d :: ps2) r (vs1 ++ v :: vs2) = .ok .negative) := by
  have heither : ∀ id els v, positionMatchesE (either id els) v
      = .ok (els.any (fun e => strictEq e v)) := by
    intro id els v; rfl
  have hneither : ∀ id els v, positionMatchesE (neither id els) v
      = .ok (els.all (fun e => !strictEq e v)) := by
    intro id els v; rfl
  refine ⟨heither, hneither, ?_, ?_, ?_⟩
  · intro id v; exact heither id [] v
  · intro id v; exact hneither id [] v
  · intro ps1 ps2 vs1 vs2 d v r h1 h2 hpre hd
    have hlen : (ps1 ++ d :: ps2).length = (vs1 ++ v :: vs2).length := by
      simp [h1, h2]
    have hb : ((ps1 ++ d :: ps2).length != (vs1 ++ v :: vs2).length) = false := by
      simp [bne, hlen]
    have hzip : (ps1 ++ d :: ps2).zip (vs1 ++ v :: vs2)
        = ps1.zip vs1 ++ (d, v) :: ps2.zip vs2 := by
      rw [List.zip_append h1]
      rfl
    have hloop : whenLoop ((ps1 ++ d :: ps2).zip (vs1 ++ v :: vs2)) = .ok false := by
      rw [hzip]
      exact whenLoop_false_of_mem (ps1.zip vs1) (ps2.zip vs2) d v hpre hd
    simp [when, hb, hloop]

/-- Witness for C5: `when([1, either(7)], 'R')([1, 8])` is Negative,
and the concrete either/neither evaluations agree. -/
theorem either_neither_semantics_witness :
    positionMatchesE (either 5 [.num 7]) (.num 8) = .ok false ∧
    when [.num 1, either 5 [.num 7]] (.str "R") [.num 1, .num 8]
      = .ok .negative :=
  ⟨rfl,
    either_neither_semantics.2.2.2.2 [.num 1] [] [.num 1] []
      (either 5 [.num 7]) (.num 8) (.str "R") rfl rfl
      (by
        intro pv hpv
        rcases List.mem_cons.mp hpv with h | h
        · exact ⟨true, by rw [h]; rfl⟩
        · cases h)
      rfl⟩

/-- C6: a literal (non-wildcard, non-descriptor) pattern element
matches its position iff it is strictly equal (`===`) to the value:
primitives are equal only when of the same type with the same value,
`NaN` never equals anything (itself included), a number and a big
integer are never equal even with the same numeric value, and objects
are compared by reference identity, so two distinct objects with
identical contents are not equal. -/
theorem literal_strict_equality_semantics :
    (∀ p v, strictEq p (.str WILDCARD_VALUE) = false →
      truthy (getOperator p) = false →
      positionMatchesE p v = .ok (strictEq p v)) ∧
    (∀ a b : Int, strictEq (.num a) (.num b) = (a == b)) ∧
    (∀ s t : String, strictEq (.str s) (.str t) = (s == t)) ∧
    (∀ a b : Bool, strictEq (.boolean a) (.boolean b) = (a == b)) ∧
    (∀ a b : Int, strictEq (.bigint a) (.bigint b) = (a == b)) ∧
    strictEq .null .null = true ∧
    strictEq .undefined .undefined = true ∧
    (∀ v, strictEq .nan v = false) ∧
    (∀ v, strictEq v .nan = false) ∧
    (∀ n : Int, strictEq (.num n) (.bigint n) = false) ∧
    (∀ (n : Int) (s : String), strictEq (.num n) (.str s) = false) ∧
    (∀ i o1 e1 j o2 e2, strictEq (.obj i o1 e1) (.obj j o2 e2) = (i == j)) ∧
    (∀ (i j : Nat) (o : Option JSVal) (e : Option (List JSVal)), i ≠ j →
      strictEq (.obj i o e) (.obj j o e) = false) := by
  refine ⟨?_, fun a b => rfl, fun s t => rfl, fun a b => rfl, fun a b => rfl,
    rfl, rfl, ?_, ?_, fun n => rfl, fun n s => rfl, fun i o1 e1 j o2 e2 => rfl, ?_⟩
  · intro p v hw ho
    simp [positionMatchesE, hw, ho]
  · intro v; cases v <;> rfl
  · intro v; cases v <;> rfl
  · intro i j o e h
    have : (i == j) = false := by
      simp [h]
    simp [strictEq, this]

/-- Witness for C6: the literal position `3` against `3`, and two
distinct objects with identical contents. -/
theorem literal_strict_equality_semantics_witness :
    (strictEq (.num 3) (.str WILDCARD_VALUE) = false ∧
      truthy (getOperator (.num 3)) = false ∧
      positionMatchesE (.num 3) (.num 3) = .ok (strictEq (.num 3) (.num 3))) ∧
    ((0 : Nat) ≠ 1 ∧ strictEq (.obj 0 none none) (.obj 1 none none) = false) :=
  ⟨⟨rfl, rfl, literal_strict_equality_semantics.1 (.num 3) (.num 3) rfl rfl⟩,
    ⟨by decide,
      literal_strict_equality_semantics.2.2.2.2.2.2.2.2.2.2.2.2 0 1 none none
        (by decide)⟩⟩

/-- C10: a pattern element carrying a truthy `operator` field whose
value is strictly equal to neither `'either'` nor `'neither'` falls
through the operator dispatch and is compared to the value as a literal
by reference identity: it matches exactly the object with its own
reference identity, and no error is raised. -/
theorem unknown_operator_falls_through_to_literal (id : Nat) (op : JSVal)
    (els : Option (List JSVal)) (v : JSVal) (hop : truthy op = true)
    (he : strictEq op (.str "either") = false)
    (hn : strictEq op (.str "neither") = false) :
    positionMatchesE (.obj id (some op) els) v
      = .ok (strictEq (.obj id (some op) els) v) ∧
    (strictEq (.obj id (some op) els) v = true ↔ ∃ o e, v = .obj id o e) := by
  constructor
  · have hw : strictEq (.obj id (some op) els) (.str WILDCARD_VALUE) = false := rfl
    have hgo : getOperator (.obj id (some op) els) = op := rfl
    simp [positionMatchesE, hw, hgo, hop, he, hn]
  · constructor
    · intro h
      cases v with
      | obj j o2 e2 =>
        have : id = j := by
          simpa [strictEq] using h
        exact ⟨o2, e2, by rw [this]⟩
      | num n => simp [strictEq] at h
      | nan => simp [strictEq] at h
      | str s => simp [strictEq] at h
      | boolean b => simp [strictEq] at h
      | bigint n => simp [strictEq] at h
      | null => simp [strictEq] at h
      | undefined => simp [strictEq] at h
    · intro h
      obtain ⟨o, e, rfl⟩ := h
      simp [strictEq]

/-- Witness for C10: the element `{operator: 1}` (truthy, unrecognized
operator) against the value `5`: no error, literal reference
comparison, and it can only equal an object with its own identity. -/
theorem unknown_operator_falls_through_to_literal_witness :
    truthy (.num 1) = true ∧
    (positionMatchesE (.obj 0 (some (.num 1)) none) (.num 5)
      = .ok (strictEq (.obj 0 (some (.num 1)) none) (.num 5)) ∧
    (strictEq (.obj 0 (some (.num 1)) none) (.num 5) = true ↔
      ∃ o e, JSVal.num 5 = .obj 0 o e)) :=
  ⟨rfl,
    unknown_operator_falls_through_to_literal 0 (.num 1) none (.num 5)
      rfl rfl rfl⟩

/-- C1: the dispatcher returns the result of the first arm in list
order whose outcome is Positive with a truthy result; arms before it
that are Negative or Positive-with-falsy-result are skipped exactly as
if they had not matched; when no arm qualifies the dispatcher returns
Absent (`undefined`, modelled as `none`).  The arms after the selected
one are still applied (they must return an outcome), but never
consulted. -/
theorem match_selects_first_truthy_positive :
    (∀ (values : List JSVal)
      (ws1 : List (List JSVal → Except Unit MatchResult))
      (w : List JSVal → Except Unit MatchResult)
      (ws2 : List (List JSVal → Except Unit MatchResult)) (r : JSVal),
      (∀ w1 ∈ ws1, ∃ m, w1 values = .ok m ∧ qualifies m = false) →
      (∀ w2 ∈ ws2, ∃ m, w2 values = .ok m) →
      w values = .ok (.positive r) → truthy r = true →
      matchFn values (ws1 ++ w :: ws2) = .ok (some r)) ∧
    (∀ (values : List JSVal)
      (whens : List (List JSVal → Except Unit MatchResult)),
      (∀ w ∈ whens, ∃ m, w values = .ok m ∧ qualifies m = false) →
      matchFn values whens = .ok none) := by
  constructor
  · intro values ws1
    induction ws1 with
    | nil =>
      intro w ws2 r h1 h2 hw hr
      obtain ⟨ms, hms⟩ := evalWhens_ok ws2 values h2
      have hq : qualifies (.positive r) = true := hr
      simp only [List.nil_append, matchFn, evalWhens, hw, hms]
      simp [List.find?, hq, matchResultGet]
    | cons w1 ws1' ih =>
      intro w ws2 r h1 h2 hw hr
      obtain ⟨m1, hm1, hq1⟩ := h1 w1 (List.mem_cons_self _ _)
      have hih := ih w ws2 r (fun x hx => h1 x (List.mem_cons_of_mem _ hx))
        h2 hw hr
      cases hL : evalWhens (ws1' ++ w :: ws2) values with
      | error e =>
        simp only [matchFn, hL] at hih
        exact Except.noConfusion hih
      | ok results =>
        simp only [matchFn, hL] at hih
        have hfind : (results.find? qualifies).map matchResultGet = some r :=
          Except.ok.inj hih
        simp only [List.cons_append, matchFn, evalWhens, hm1, List.append_eq]
        rw [hL]
        simp [List.find?, hq1, hfind]
  · intro values whens
    induction whens with
    | nil =>
      intro _
      rfl
    | cons w rest ih =>
      intro h
      obtain ⟨m, hm, hq⟩ := h w (List.mem_cons_self _ _)
      have hih := ih (fun x hx => h x (List.mem_cons_of_mem _ hx))
      cases hL : evalWhens rest values with
      | error e =>
        simp only [matchFn, hL] at hih
        exact Except.noConfusion hih
      | ok results =>
        simp only [matchFn, hL] at hih
        have hfind : (results.find? qualifies).map matchResultGet = none :=
          Except.ok.inj hih
        simp only [matchFn, evalWhens, hm, hL]
        simp [List.find?, hq, hfind]

/-- Witness for C1: with the value tuple `(1)`, the arm list
`when([2],'A')` (Negative), `when([1], 0)` (Positive but falsy, so
skipped), `when([1],'B')`, `when([1],'C')` selects `'B'`. -/
theorem match_selects_first_truthy_positive_witness :
    truthy (.str "B") = true ∧
    matchFn [.num 1]
      [when [.num 2] (.str "A"), when [.num 1] (.num 0),
        when [.num 1] (.str "B"), when [.num 1] (.str "C")]
      = .ok (some (.str "B")) :=
  ⟨rfl,
    match_selects_first_truthy_positive.1 [.num 1]
      [when [.num 2] (.str "A"), when [.num 1] (.num 0)]
      (when [.num 1] (.str "B")) [when [.num 1] (.str "C")] (.str "B")
      (by
        intro w1 hw1
        rcases List.mem_cons.mp hw1 with h | h
        · exact ⟨.negative, by rw [h]; rfl, rfl⟩
        · rcases List.mem_cons.mp h with h | h
          · exact ⟨.positive (.num 0), by rw [h]; rfl, rfl⟩
          · cases h)
      (by
        intro w2 hw2
        rcases List.mem_cons.mp hw2 with h | h
        · exact ⟨.positive (.str "C"), by rw [h]; rfl⟩
        · cases h)
      rfl rfl⟩

/-- C7: for every documented input — pattern tuples of literals,
wildcards and well-formed either/neither descriptors (captured by
`wellFormedElem`), arbitrary value tuples and arm lists — no call to
`when`, a matcher, or `match` throws: arity mismatches and comparison
mismatches come back as the Negative data variant, never as an error
(`either` and `neither` are plain constructors and cannot fail by
construction). -/
theorem engine_no_exceptions :
    (∀ (pattern : List JSVal) (r : JSVal) (values : List JSVal),
      pattern.all wellFormedElem = true →
      ∃ m, when pattern r values = .ok m) ∧
    (∀ (values : List JSVal) (arms : List (List JSVal × JSVal)),
      (∀ a ∈ arms, a.1.all wellFormedElem = true) →
      ∃ res, matchFn values (armsToWhens arms) = .ok res) := by
  have hwhen : ∀ (pattern : List JSVal) (r : JSVal) (values : List JSVal),
      pattern.all wellFormedElem = true →
      ∃ m, when pattern r values = .ok m := by
    intro pattern r values h
    rw [List.all_eq_true] at h
    cases hl : (pattern.length != values.length) with
    | true => exact ⟨.negative, by simp [when, hl]⟩
    | false =>
      have hall : ∀ pv ∈ pattern.zip values,
          ∃ b, positionMatchesE pv.1 pv.2 = .ok b := by
        intro pv hpv
        exact positionMatchesE_ok_of_wellFormed pv.1 pv.2
          (h pv.1 (List.of_mem_zip hpv).1)
      obtain ⟨b, hb⟩ := whenLoop_ok (pattern.zip values) hall
      cases b with
      | true => exact ⟨.positive r, by simp [when, hl, hb]⟩
      | false => exact ⟨.negative, by simp [when, hl, hb]⟩
  refine ⟨hwhen, ?_⟩
  intro values arms h
  have harm : ∀ w ∈ armsToWhens arms, ∃ m, w values = .ok m := by
    intro w hw
    rw [armsToWhens, List.mem_map] at hw
    obtain ⟨a, ha, rfl⟩ := hw
    exact hwhen a.1 a.2 values (h a ha)
  obtain ⟨ms, hms⟩ := evalWhens_ok (armsToWhens arms) values harm
  exact ⟨(ms.find? qualifies).map matchResultGet, by simp [matchFn, hms]⟩

/-- Witness for C7: a pattern mixing a literal, the wildcard and a
well-formed descriptor, and a one-arm dispatch, both return `.ok`. -/
theorem engine_no_exceptions_witness :
    [JSVal.num 1, wildcardAlias, either 0 [.num 2]].all wellFormedElem = true ∧
    (∃ m, when [.num 1, wildcardAlias, either 0 [.num 2]] (.str "R")
      [.num 1, .num 9, .num 2] = .ok m) ∧
    (∃ res, matchFn [.num 1] (armsToWhens [([.num 1], .str "A")]) = .ok res) :=
  ⟨by decide,
    engine_no_exceptions.1 [.num 1, wildcardAlias, either 0 [.num 2]]
      (.str "R") [.num 1, .num 9, .num 2] (by decide),
    engine_no_exceptions.2 [.num 1] [([.num 1], .str "A")]
      (by
        intro a ha
        rcases List.mem_cons.mp ha with h | h
        · rw [h]; rfl
        · cases h)⟩

/-- The fuel-indexed loop of `when` finishes within one unit of fuel
per position. -/
theorem whenLoopFuel_eq (pvs : List (JSVal × JSVal)) (fuel : Nat)
    (h : pvs.length ≤ fuel) : whenLoopFuel fuel pvs = some (whenLoop pvs) := by
  induction pvs generalizing fuel with
  | nil => cases fuel <;> rfl
  | cons pv rest ih =>
    obtain ⟨p, v⟩ := pv
    cases fuel with
    | zero =>
      simp only [List.length_cons] at h
      omega
    | succ f =>
      have hf : rest.length ≤ f := by
        simp only [List.length_cons] at h
        omega
      cases hpm : positionMatchesE p v with
      | error e => simp [whenLoopFuel, whenLoop, hpm]
      | ok b =>
        cases b with
        | true =>
          simp only [whenLoopFuel, whenLoop, hpm]
          exact ih f hf
        | false => simp [whenLoopFuel, whenLoop, hpm]

/-- The fuel-indexed `when` finishes within one unit of fuel per
pattern position. -/
theorem whenFuel_eq (fuel : Nat) (pattern : List JSVal) (r : JSVal)
    (values : List JSVal) (h : pattern.length ≤ fuel) :
    whenFuel fuel pattern r values = some (when pattern r values) := by
  cases hl : (pattern.length != values.length) with
  | true => simp [whenFuel, when, hl]
  | false =>
    have hzl : (pattern.zip values).length ≤ fuel := by
      rw [List.length_zip]
      omega
    simp only [whenFuel, when, hl, whenLoopFuel_eq _ _ hzl]
    cases hw : whenLoop (pattern.zip values) with
    | error e => simp [hw]
    | ok b => cases b <;> simp [hw]

/-- The fuel-indexed arm-evaluation stage of `match` finishes within
one unit of fuel per arm plus the longest pattern length. -/
theorem evalArmsFuel_eq (fuel : Nat) (arms : List (List JSVal × JSVal))
    (values : List JSVal) (h : arms.length + maxPatLen arms ≤ fuel) :
    evalArmsFuel fuel arms values
      = some (evalWhens (armsToWhens arms) values) := by
  simp only [armsToWhens]
  induction arms generalizing fuel with
  | nil => cases fuel <;> rfl
  | cons a rest ih =>
    obtain ⟨p, r⟩ := a
    cases fuel with
    | zero =>
      simp only [List.length_cons] at h
      omega
    | succ f =>
      have hp : p.length ≤ f := by
        simp only [List.length_cons, maxPatLen] at h
        omega
      have hrest : rest.length + maxPatLen rest ≤ f := by
        simp only [List.length_cons, maxPatLen] at h
        omega
      simp only [List.map_cons, evalArmsFuel, evalWhens]
      rw [whenFuel_eq f p r values hp, ih f hrest]
      cases hw : when p r values with
      | error e => simp [hw]
      | ok m =>
        cases hE : evalWhens (List.map (fun a => when a.1 a.2) rest) values with
        | error e => simp [hw, hE]
        | ok ms => simp [hw, hE]

/-- C8: every call into the engine terminates.  `either` and `neither`
are single constructor applications; `when`'s loop finishes within one
unit of fuel per pattern position, and the arm-evaluation stage of the
function returned by `match` finishes within one unit of fuel per arm
plus the longest pattern length (the subsequent scan of the outcome
list is a single traversal of a list of the arms' length): the
fuel-indexed evaluators never report fuel exhaustion at those bounds
and compute exactly the unbounded evaluators' answers. -/
theorem engine_terminates_with_bounded_fuel :
    (∀ (pattern : List JSVal) (r : JSVal) (values : List JSVal),
      whenFuel pattern.length pattern r values
        = some (when pattern r values)) ∧
    (∀ (arms : List (List JSVal × JSVal)) (values : List JSVal),
      evalArmsFuel (arms.length + maxPatLen arms) arms values
        = some (evalWhens (armsToWhens arms) values)) :=
  ⟨fun pattern r values => whenFuel_eq pattern.length pattern r values
      (Nat.le_refl _),
    fun arms values => evalArmsFuel_eq (arms.length + maxPatLen arms) arms
      values (Nat.le_refl _)⟩

end PatternMatching
